import Mathlib

/-!
Shallow embedding of `src/main.py` (class `RoadGuardProgram`).

Modelling conventions:

* Python strings are Lean `String`s; Python slicing/reversal act on code
  points, which coincide with the `Char` entries of `String.data`.
* The regex `\[(\d+\.\d+\.\d+), (\d+:\d+:\d+)\] (.+?): דיווח: (\S+) (.+)`
  used with `re.match` is embedded as an executable matcher.  `\d` is
  modelled by `Char.isDigit` and `\S` by `fun c => !c.isWhitespace`.  The
  matched strings come from `readlines()`/`input()` followed by `.strip()`,
  so they contain no newline and `.` matches any character.  The `\d+`/`\S+`
  pieces are greedy over character classes disjoint from the literal that
  follows them, so they match deterministically; the only backtracking the
  regex needs is the non-greedy `(.+?)`, embedded as a search for the
  shortest non-empty piece followed by the literal marker `: דיווח: ` and a
  matching tail.
* `parse_messages` reads lines from a file and, for each unmatched line,
  reads one line from standard input; both are passed explicitly: `lines`
  is the list of file lines and `cors` the stream of correction inputs
  (an exhausted stream behaves as empty input).
* Python `dict`s (insertion ordered, unique keys) are association lists;
  `defaultdict(list)` appends create or extend entries in insertion order.
* `sorted(messages, key=lambda x: x["time"])` is a stable sort by
  lexicographic (code-point) comparison of the `time` strings, embedded as
  `List.insertionSort` (stable) over that comparison.
-/

namespace RoadGuard

/-- Python `s[::-1]`: reverse the code points of a string. -/
def strRev (s : String) : String := ⟨s.data.reverse⟩

/-- Python `s[:n]`: the first `n` code points of a string. -/
def strTake (s : String) (n : Nat) : String := ⟨s.data.take n⟩

/-- Python `str.strip()` on a character list: drop whitespace at both ends. -/
def stripChars (cs : List Char) : List Char :=
  (((cs.dropWhile Char.isWhitespace).reverse).dropWhile Char.isWhitespace).reverse

/-- Python `str.strip()`. -/
def strip (s : String) : String := ⟨stripChars s.data⟩

/-- Lexicographic (code-point) comparison of character lists, the order
Python uses to compare strings: `charListLe a b = true` iff `a <= b`. -/
def charListLe : List Char → List Char → Bool
  | [], _ => true
  | _ :: _, [] => false
  | a :: as, b :: bs =>
    if a < b then true
    else if a = b then charListLe as bs
    else false

/-- Python `a <= b` on strings. -/
def strLe (a b : String) : Bool := charListLe a.data b.data

/-- One parsed message, the five-key dict built in `parse_messages`
(lines 37-43 and 53-59 of `src/main.py`). -/
structure Report where
  date : String
  time : String
  reporter : String
  direction : String
  car : String
deriving DecidableEq

/-- The five capture groups of the message pattern, before any
truncation or reversal. -/
structure RawMatch where
  date : String
  time : String
  reporter : String
  direction : String
  car : String
deriving DecidableEq

/-- One entry of the per-car summary, the three-key dict built in
`generate_tables` (lines 71-75 of `src/main.py`). -/
structure CarEntry where
  time : String
  reporter : String
  direction : String
deriving DecidableEq

/-- Match a literal character list at the front of the input, returning the
rest on success. -/
def dropLit : List Char → List Char → Option (List Char)
  | [], cs => some cs
  | _ :: _, [] => none
  | l :: ls, c :: cs => if c = l then dropLit ls cs else none

/-- Match `\d+sep\d+sep\d+` (greedy digit runs separated by a literal
character), returning the matched characters and the rest. -/
def matchNumTriple (sep : Char) (cs : List Char) : Option (List Char × List Char) :=
  let d1 := cs.takeWhile Char.isDigit
  let r1 := cs.dropWhile Char.isDigit
  if d1 = [] then none
  else
    match r1 with
    | [] => none
    | c1 :: r2 =>
      if c1 = sep then
        let d2 := r2.takeWhile Char.isDigit
        let r3 := r2.dropWhile Char.isDigit
        if d2 = [] then none
        else
          match r3 with
          | [] => none
          | c2 :: r4 =>
            if c2 = sep then
              let d3 := r4.takeWhile Char.isDigit
              let r5 := r4.dropWhile Char.isDigit
              if d3 = [] then none
              else some (d1 ++ [sep] ++ d2 ++ [sep] ++ d3, r5)
            else none
      else none

/-- The literal `: דיווח: ` separating the reporter from the rest of the
message in the pattern. -/
def markerChars : List Char := [':', ' ', 'ד', 'י', 'ו', 'ו', 'ח', ':', ' ']

/-- Match `(\S+) (.+)` against the remaining characters: a greedy non-empty
run of non-whitespace characters (the direction), a literal space, and a
non-empty rest (the car description). -/
def matchDirCar (cs : List Char) : Option (String × String) :=
  let d := cs.takeWhile (fun c => !c.isWhitespace)
  let r := cs.dropWhile (fun c => !c.isWhitespace)
  if d = [] then none
  else
    match r with
    | ' ' :: rest => if rest = [] then none else some (⟨d⟩, ⟨rest⟩)
    | _ => none

/-- Match `(.+?): דיווח: (\S+) (.+)`: try successively longer non-empty
reporter pieces (non-greedy `(.+?)`), at each point requiring the marker
and a matching direction/car tail.  `acc` holds the reporter characters
consumed so far, in reverse. -/
def findReport (acc : List Char) : List Char → Option (String × String × String)
  | [] => none
  | c :: cs =>
    match dropLit markerChars cs with
    | some rest =>
      match matchDirCar rest with
      | some dc => some (⟨(c :: acc).reverse⟩, dc.1, dc.2)
      | none => findReport (c :: acc) cs
    | none => findReport (c :: acc) cs

/-- `re.match` of the full pattern
`\[(\d+\.\d+\.\d+), (\d+:\d+:\d+)\] (.+?): דיווח: (\S+) (.+)`
against a string, returning the five capture groups. -/
def matchPattern (s : String) : Option RawMatch :=
  match s.data with
  | '[' :: cs =>
    match matchNumTriple '.' cs with
    | some dr =>
      match dropLit [',', ' '] dr.2 with
      | some r2 =>
        match matchNumTriple ':' r2 with
        | some tr =>
          match dropLit [']', ' '] tr.2 with
          | some r4 =>
            match findReport [] r4 with
            | some rdc => some ⟨⟨dr.1⟩, ⟨tr.1⟩, rdc.1, rdc.2.1, rdc.2.2⟩
            | none => none
          | none => none
        | none => none
      | none => none
    | none => none
  | _ => none

/-- The record appended for a directly matched line (lines 37-43): time is
truncated to its first five characters, the three text fields are
reversed. -/
def directReport (g : RawMatch) : Report :=
  ⟨g.date, strTake g.time 5, strRev g.reporter, strRev g.direction, strRev g.car⟩

/-- The record appended for a line accepted through the correction prompt
(lines 53-59): the full time is kept, the three text fields are
reversed. -/
def correctedReport (g : RawMatch) : Report :=
  ⟨g.date, g.time, strRev g.reporter, strRev g.direction, strRev g.car⟩

/-- The loop of `parse_messages` (lines 32-61): process each line in order,
consuming one correction input per unmatched line; returns the collected
records and the unconsumed correction inputs. -/
def parseAux (date : String) : List String → List String → List Report × List String
  | [], cors => ([], cors)
  | l :: ls, cors =>
    match matchPattern (strip l) with
    | some g =>
      let rest := parseAux date ls cors
      ((if g.date = date then [directReport g] else []) ++ rest.1, rest.2)
    | none =>
      let c := strip (cors.headD "")
      let recs :=
        if c = "" then []
        else
          match matchPattern c with
          | some g => if g.date = date then [correctedReport g] else []
          | none => []
      let rest := parseAux date ls cors.tail
      (recs ++ rest.1, rest.2)

/-- `parse_messages` (lines 25-62): `lines` are the lines of the chat file,
`cors` the stream of correction inputs. -/
def parse_messages (lines cors : List String) (date : String) : List Report :=
  (parseAux date lines cors).1

/-- The sort key relation of `sorted(messages, key=lambda x: x["time"])`:
lexicographic string comparison of the `time` fields. -/
def timeRel : Report → Report → Prop := fun a b => strLe a.time b.time = true

instance : DecidableRel timeRel := fun a b =>
  instDecidableEqBool (strLe a.time b.time) true

/-- `car_summary[msg["car"]].append({...})` on a `defaultdict(list)`
modelled as an association list: append to the entry of `car`, creating it
at the end on first use. -/
def appendEntry : List (String × List CarEntry) → String → CarEntry →
    List (String × List CarEntry)
  | [], car, e => [(car, [e])]
  | (c, es) :: rest, car, e =>
    if c = car then (c, es ++ [e]) :: rest
    else (c, es) :: appendEntry rest car e

/-- The car-summary loop of `generate_tables` (lines 69-75). -/
def buildCarSummary (msgs : List Report) : List (String × List CarEntry) :=
  msgs.foldl (fun acc m => appendEntry acc m.car ⟨m.time, m.reporter, m.direction⟩) []

/-- `generate_tables` (lines 64-77): the time-sorted chronological table
and the per-car summary. -/
def generate_tables (msgs : List Report) :
    List Report × List (String × List CarEntry) :=
  (List.insertionSort timeRel msgs, buildCarSummary msgs)

/-- One value of the store mapping: the dict
`{"chronological": [...], "car_summary": {...}}`. -/
structure Bucket where
  chronological : List Report
  car_summary : List (String × List CarEntry)
deriving DecidableEq

/-- The persistent store `self.data`: a date-keyed dict modelled as an
association list. -/
abbrev Store := List (String × Bucket)

/-- Look up a car in a summary dict. -/
def lookupCar : List (String × List CarEntry) → String → Option (List CarEntry)
  | [], _ => none
  | (c, es) :: rest, car => if c = car then some es else lookupCar rest car

/-- The merge step of `process_chat` for one car (lines 91-94):
`if car not in summary: summary[car] = []` then `summary[car].extend(details)`. -/
def extendCar : List (String × List CarEntry) → String → List CarEntry →
    List (String × List CarEntry)
  | [], car, ds => [(car, ds)]
  | (c, es) :: rest, car, ds =>
    if c = car then (c, es ++ ds) :: rest
    else (c, es) :: extendCar rest car ds

/-- The loop of lines 91-94: merge every car of a fresh summary into the
stored summary. -/
def mergeSummary (acc cs : List (String × List CarEntry)) :
    List (String × List CarEntry) :=
  cs.foldl (fun a p => extendCar a p.1 p.2) acc

/-- Lines 87-94 of `process_chat`: create the date bucket if absent, then
extend its chronological list and its per-car lists. -/
def updateStore : Store → String → List Report → List (String × List CarEntry) → Store
  | [], d, chron, cs => [(d, ⟨chron, mergeSummary [] cs⟩)]
  | (d0, b) :: rest, d, chron, cs =>
    if d0 = d then
      (d0, ⟨b.chronological ++ chron, mergeSummary b.car_summary cs⟩) :: rest
    else (d0, b) :: updateStore rest d chron cs

/-- `process_chat` (lines 79-99): parse, aggregate, merge into the store;
returns the updated store together with the two tables the method
returns. -/
def process_chat (store : Store) (lines cors : List String) (date : String) :
    Store × List Report × List (String × List CarEntry) :=
  let messages := parse_messages lines cors date
  let t := generate_tables messages
  (updateStore store date t.1 t.2, t.1, t.2)

/-- The chronological list stored under a date (empty if the date is
absent). -/
def chronAt (s : Store) (d : String) : List Report :=
  match s with
  | [] => []
  | (d0, b) :: rest => if d0 = d then b.chronological else chronAt rest d

/-- The car-summary part of the bucket stored under a date (empty if the
date is absent). -/
def summaryAt (s : Store) (d : String) : List (String × List CarEntry) :=
  match s with
  | [] => []
  | (d0, b) :: rest => if d0 = d then b.car_summary else summaryAt rest d

/-- The per-car list stored under a date and car (empty if absent). -/
def carListAt (s : Store) (d car : String) : List CarEntry :=
  (lookupCar (summaryAt s d) car).getD []

/-- The possible outcomes of `open(self.save_file, "r")` followed by
`json.load(file)` in `load_data` (lines 12-18): the file may be absent
(`FileNotFoundError`), unreadable (e.g. `PermissionError`), readable but
not valid JSON (`json.JSONDecodeError`), or a well-formed store
document. -/
inductive StoreFile where
  | absent : StoreFile
  | unreadable : String → StoreFile
  | invalidJson : String → StoreFile
  | wellFormed : Store → StoreFile

/-- The exceptions the body of `load_data` can raise. -/
inductive PyExc where
  | fileNotFound : PyExc
  | osError : String → PyExc
  | jsonDecodeError : String → PyExc
deriving DecidableEq

/-- The `try` body of `load_data`: `open` + `json.load`. -/
def openAndParse : StoreFile → Except PyExc Store
  | .absent => .error .fileNotFound
  | .unreadable m => .error (.osError m)
  | .invalidJson m => .error (.jsonDecodeError m)
  | .wellFormed s => .ok s

/-- `load_data` (lines 12-18): the `except` clause catches exactly
`FileNotFoundError` and returns the empty dict; every other exception
propagates to the caller. -/
def load_data (f : StoreFile) : Except PyExc Store :=
  match openAndParse f with
  | .ok s => .ok s
  | .error .fileNotFound => .ok []
  | .error e => .error e

/-! ### Helper lemmas -/

theorem charListLe_trans : ∀ (a b c : List Char),
    charListLe a b = true → charListLe b c = true → charListLe a c = true
  | [], _, _, _, _ => rfl
  | _ :: _, [], _, h1, _ => by simp [charListLe] at h1
  | _ :: _, _ :: _, [], _, h2 => by simp [charListLe] at h2
  | x :: xs, y :: ys, z :: zs, h1, h2 => by
    simp only [charListLe] at h1 h2 ⊢
    rcases lt_trichotomy x y with hxy | hxy | hxy
    · rcases lt_trichotomy y z with hyz | hyz | hyz
      · rw [if_pos (lt_trans hxy hyz)]
      · subst hyz; rw [if_pos hxy]
      · rw [if_neg (lt_asymm hyz), if_neg (ne_of_gt hyz)] at h2
        exact Bool.noConfusion h2
    · subst hxy
      rw [if_neg (lt_irrefl x), if_pos rfl] at h1
      rcases lt_trichotomy x z with hxz | hxz | hxz
      · rw [if_pos hxz]
      · subst hxz
        rw [if_neg (lt_irrefl x), if_pos rfl] at h2 ⊢
        exact charListLe_trans xs ys zs h1 h2
      · rw [if_neg (lt_asymm hxz), if_neg (ne_of_gt hxz)] at h2
        exact Bool.noConfusion h2
    · rw [if_neg (lt_asymm hxy), if_neg (ne_of_gt hxy)] at h1
      exact Bool.noConfusion h1

theorem charListLe_total : ∀ (a b : List Char),
    charListLe a b = true ∨ charListLe b a = true
  | [], _ => Or.inl rfl
  | _ :: _, [] => Or.inr rfl
  | x :: xs, y :: ys => by
    simp only [charListLe]
    rcases lt_trichotomy x y with h | h | h
    · exact Or.inl (by rw [if_pos h])
    · subst h
      rw [if_neg (lt_irrefl x), if_pos rfl, if_neg (lt_irrefl x), if_pos rfl]
      exact charListLe_total xs ys
    · exact Or.inr (by rw [if_pos h])

instance : IsTrans Report timeRel :=
  ⟨fun _ _ _ h1 h2 => charListLe_trans _ _ _ h1 h2⟩

instance : IsTotal Report timeRel :=
  ⟨fun a b => charListLe_total a.time.data b.time.data⟩

/-- Every record collected by the parsing loop carries the target date:
both appends are guarded by `msg_date == date`. -/
theorem date_of_mem_parseAux (date : String) :
    ∀ (lines cors : List String) (r : Report),
      r ∈ (parseAux date lines cors).1 → r.date = date
  | [], cors, r, h => by simp [parseAux] at h
  | l :: ls, cors, r, h => by
    rcases hm : matchPattern (strip l) with _ | g
    · simp only [parseAux, hm] at h
      rcases List.mem_append.1 h with h1 | h2
      · split at h1
        · simp at h1
        · split at h1
          · split at h1
            · rename_i g2 hd
              rcases List.mem_singleton.1 h1 with rfl
              exact hd
            · simp at h1
          · simp at h1
      · exact date_of_mem_parseAux date ls cors.tail r h2
    · simp only [parseAux, hm] at h
      rcases List.mem_append.1 h with h1 | h2
      · split at h1
        · rename_i hd
          rcases List.mem_singleton.1 h1 with rfl
          exact hd
        · simp at h1
      · exact date_of_mem_parseAux date ls cors r h2

theorem date_of_mem_parse (lines cors : List String) (date : String) (r : Report)
    (h : r ∈ parse_messages lines cors date) : r.date = date :=
  date_of_mem_parseAux date lines cors r h

theorem appendEntry_eq_extendCar :
    ∀ (acc : List (String × List CarEntry)) (car : String) (e : CarEntry),
      appendEntry acc car e = extendCar acc car [e]
  | [], _, _ => rfl
  | (c, es) :: rest, car, e => by
    simp only [appendEntry, extendCar]
    split
    · rfl
    · rw [appendEntry_eq_extendCar rest car e]

theorem lookup_extendCar :
    ∀ (acc : List (String × List CarEntry)) (car : String) (ds : List CarEntry)
      (car2 : String),
      lookupCar (extendCar acc car ds) car2 =
        if car2 = car then some ((lookupCar acc car).getD [] ++ ds)
        else lookupCar acc car2
  | [], car, ds, car2 => by
    by_cases h : car2 = car
    · subst h; simp [extendCar, lookupCar]
    · simp [extendCar, lookupCar, h, Ne.symm h]
  | (c, es) :: rest, car, ds, car2 => by
    by_cases hc : c = car
    · subst hc
      by_cases h2 : car2 = c
      · subst h2; simp [extendCar, lookupCar]
      · simp [extendCar, lookupCar, h2, Ne.symm h2]
    · by_cases h2 : car2 = c
      · subst h2
        simp [extendCar, lookupCar, hc, Ne.symm hc]
      · simp only [extendCar, if_neg hc, lookupCar, if_neg (Ne.symm h2)]
        exact lookup_extendCar rest car ds car2

theorem lookupCar_eq_none_of_not_mem :
    ∀ (acc : List (String × List CarEntry)) (car : String),
      car ∉ acc.map Prod.fst → lookupCar acc car = none
  | [], _, _ => rfl
  | (c, es) :: rest, car, h => by
    simp only [List.map, List.mem_cons, not_or] at h
    simp only [lookupCar]
    rw [if_neg (fun hh => h.1 hh.symm)]
    exact lookupCar_eq_none_of_not_mem rest car h.2

theorem keys_appendEntry :
    ∀ (acc : List (String × List CarEntry)) (car : String) (e : CarEntry),
      (appendEntry acc car e).map Prod.fst =
        if car ∈ acc.map Prod.fst then acc.map Prod.fst
        else acc.map Prod.fst ++ [car]
  | [], car, e => by simp [appendEntry]
  | (c, es) :: rest, car, e => by
    simp only [appendEntry]
    by_cases hc : c = car
    · subst hc
      simp [List.map]
    · rw [if_neg hc]
      simp only [List.map, keys_appendEntry rest car e, List.mem_cons]
      by_cases hmem : car ∈ rest.map Prod.fst
      · rw [if_pos hmem, if_pos (Or.inr hmem)]
      · rw [if_neg hmem, if_neg (by
          rintro (h | h)
          · exact hc h.symm
          · exact hmem h)]
        rfl

theorem nodup_keys_foldAppend :
    ∀ (msgs : List Report) (acc : List (String × List CarEntry)),
      (acc.map Prod.fst).Nodup →
      ((msgs.foldl
          (fun a m => appendEntry a m.car ⟨m.time, m.reporter, m.direction⟩)
          acc).map Prod.fst).Nodup
  | [], acc, h => h
  | m :: ms, acc, h => by
    simp only [List.foldl]
    apply nodup_keys_foldAppend ms
    rw [keys_appendEntry]
    split
    · exact h
    · rename_i hmem
      rw [← List.concat_eq_append]
      exact h.concat hmem

theorem nodup_keys_buildCarSummary (msgs : List Report) :
    ((buildCarSummary msgs).map Prod.fst).Nodup :=
  nodup_keys_foldAppend msgs [] List.nodup_nil

theorem lookup_mergeSummary :
    ∀ (cs acc : List (String × List CarEntry)) (car : String),
      (cs.map Prod.fst).Nodup →
      lookupCar (mergeSummary acc cs) car =
        match lookupCar cs car with
        | some ds => some ((lookupCar acc car).getD [] ++ ds)
        | none => lookupCar acc car
  | [], acc, car, _ => rfl
  | (c1, ds1) :: rest, acc, car, hnd => by
    have hnd2 : (rest.map Prod.fst).Nodup := (List.nodup_cons.1 hnd).2
    have hc1 : c1 ∉ rest.map Prod.fst := (List.nodup_cons.1 hnd).1
    show lookupCar (mergeSummary (extendCar acc c1 ds1) rest) car = _
    rw [lookup_mergeSummary rest (extendCar acc c1 ds1) car hnd2]
    simp only [lookupCar]
    by_cases h : car = c1
    · subst h
      rw [if_pos rfl, lookupCar_eq_none_of_not_mem rest car hc1,
        lookup_extendCar, if_pos rfl]
    · rw [if_neg (fun hh => h hh.symm)]
      rw [lookup_extendCar, if_neg h]

theorem lookup_mergeSummary_exists :
    ∀ (cs acc : List (String × List CarEntry)) (car : String),
      ∃ t, (lookupCar acc car).getD [] ++ t =
        (lookupCar (mergeSummary acc cs) car).getD []
  | [], acc, car => ⟨[], List.append_nil _⟩
  | (c1, ds1) :: rest, acc, car => by
    show ∃ t, _ = (lookupCar (mergeSummary (extendCar acc c1 ds1) rest) car).getD []
    rcases lookup_mergeSummary_exists rest (extendCar acc c1 ds1) car with ⟨t2, ht2⟩
    rw [lookup_extendCar] at ht2
    by_cases h : car = c1
    · subst h
      rw [if_pos rfl] at ht2
      exact ⟨ds1 ++ t2, by rw [← List.append_assoc]; exact ht2⟩
    · rw [if_neg h] at ht2
      exact ⟨t2, ht2⟩

theorem chronAt_updateStore :
    ∀ (s : Store) (d : String) (chron : List Report)
      (cs : List (String × List CarEntry)) (d2 : String),
      chronAt (updateStore s d chron cs) d2 =
        if d2 = d then chronAt s d2 ++ chron else chronAt s d2
  | [], d, chron, cs, d2 => by
    by_cases h : d2 = d
    · subst h; simp [updateStore, chronAt]
    · simp [updateStore, chronAt, h, Ne.symm h]
  | (d0, b) :: rest, d, chron, cs, d2 => by
    by_cases h0 : d0 = d
    · subst h0
      by_cases h2 : d2 = d0
      · subst h2; simp [updateStore, chronAt]
      · simp [updateStore, chronAt, h2, Ne.symm h2]
    · by_cases h2 : d2 = d0
      · subst h2
        simp [updateStore, chronAt, h0, Ne.symm h0]
      · simp only [updateStore, if_neg h0, chronAt, if_neg (Ne.symm h2)]
        exact chronAt_updateStore rest d chron cs d2

theorem summaryAt_updateStore :
    ∀ (s : Store) (d : String) (chron : List Report)
      (cs : List (String × List CarEntry)) (d2 : String),
      summaryAt (updateStore s d chron cs) d2 =
        if d2 = d then mergeSummary (summaryAt s d2) cs else summaryAt s d2
  | [], d, chron, cs, d2 => by
    by_cases h : d2 = d
    · subst h; simp [updateStore, summaryAt]
    · simp [updateStore, summaryAt, h, Ne.symm h]
  | (d0, b) :: rest, d, chron, cs, d2 => by
    by_cases h0 : d0 = d
    · subst h0
      by_cases h2 : d2 = d0
      · subst h2; simp [updateStore, summaryAt]
      · simp [updateStore, summaryAt, h2, Ne.symm h2]
    · by_cases h2 : d2 = d0
      · subst h2
        simp [updateStore, summaryAt, h0, Ne.symm h0]
      · simp only [updateStore, if_neg h0, summaryAt, if_neg (Ne.symm h2)]
        exact summaryAt_updateStore rest d chron cs d2

theorem tail_drop_comm : ∀ (l : List String) (n : Nat), l.tail.drop n = l.drop (n + 1)
  | [], n => by simp
  | _ :: _, _ => rfl

/-- The parsing loop consumes exactly one correction input per line that
fails to match the pattern. -/
theorem parseAux_snd (date : String) :
    ∀ (lines cors : List String),
      (parseAux date lines cors).2 =
        cors.drop (lines.countP fun s => (matchPattern (strip s)).isNone)
  | [], cors => rfl
  | l :: ls, cors => by
    rcases hm : matchPattern (strip l) with _ | g
    · simp only [parseAux, hm]
      rw [parseAux_snd date ls cors.tail, tail_drop_comm]
      congr 1
      simp [List.countP_cons, hm]
    · simp only [parseAux, hm]
      rw [parseAux_snd date ls cors]
      congr 1
      simp [List.countP_cons, hm]

/-- Every entry of the car summary built by `generate_tables` comes from a
message of the input list with the same car description. -/
theorem mem_carSummary_fold :
    ∀ (msgs : List Report) (acc : List (String × List CarEntry)) (car : String)
      (e : CarEntry),
      e ∈ (lookupCar
            (msgs.foldl
              (fun a m => appendEntry a m.car ⟨m.time, m.reporter, m.direction⟩)
              acc) car).getD [] →
      e ∈ (lookupCar acc car).getD [] ∨
        ∃ m, m ∈ msgs ∧ m.car = car ∧ e = ⟨m.time, m.reporter, m.direction⟩
  | [], _, _, _, h => Or.inl h
  | m :: ms, acc, car, e, h => by
    simp only [List.foldl] at h
    rcases mem_carSummary_fold ms _ car e h with h1 | ⟨m2, hm2, hcar, he⟩
    · rw [appendEntry_eq_extendCar, lookup_extendCar] at h1
      by_cases hc : car = m.car
      · rw [if_pos hc] at h1
        simp only [Option.getD_some] at h1
        rcases List.mem_append.1 h1 with h2 | h3
        · rw [← hc] at h2
          exact Or.inl h2
        · rcases List.mem_singleton.1 h3 with rfl
          exact Or.inr ⟨m, List.mem_cons_self m ms, hc.symm, rfl⟩
      · rw [if_neg hc] at h1
        exact Or.inl h1
    · exact Or.inr ⟨m2, List.mem_cons_of_mem m hm2, hcar, he⟩

theorem strTake_length (s : String) (n : Nat) :
    (strTake s n).length = min n s.length := by
  show (s.data.take n).length = min n s.data.length
  simp

theorem strTake_ne (s : String) (h : 5 < s.length) : strTake s 5 ≠ s := by
  intro he
  have hl := congrArg String.length he
  rw [strTake_length, Nat.min_eq_left (Nat.le_of_lt h)] at hl
  omega

/-! ### Claims -/

/-- C1, counterexample: on the line
`[10.6.2024, 14:23:05] Dana: דיווח: North red sedan plate 123` with target
date `10.6.2024`, `parse_messages` does NOT produce the record
`{date: "10.6.2024", time: "14:23:05", reporter: "Dana",
direction: "North", car: "red sedan plate 123"}`: the code truncates the
time to its first five characters and reverses the reporter, direction and
car strings. -/
theorem claim1_counterexample :
    parse_messages ["[10.6.2024, 14:23:05] Dana: דיווח: North red sedan plate 123"]
        [] "10.6.2024" ≠
      [⟨"10.6.2024", "14:23:05", "Dana", "North", "red sedan plate 123"⟩] := by
  decide

/-- C1, amended: on the line
`[10.6.2024, 14:23:05] Dana: דיווח: North red sedan plate 123` with target
date `10.6.2024`, `parse_messages` produces exactly the record
`{date: "10.6.2024", time: "14:23", reporter: "anaD", direction: "htroN",
car: "321 etalp nades der"}` (time truncated to its first five characters,
text fields reversed in character order). -/
theorem claim1_parse_example :
    parse_messages ["[10.6.2024, 14:23:05] Dana: דיווח: North red sedan plate 123"]
        [] "10.6.2024" =
      [⟨"10.6.2024", "14:23", "anaD", "htroN", "321 etalp nades der"⟩] := by
  decide

/-- C2, counterexample: for the directly matched line
`[10.6.2024, 1:2:3] A: דיווח: N c` the stored time is `"1:2:3"`, the first
five characters of the matched time — which still contains the seconds
field, not the hour-and-minutes-only form `"1:2"` the claim requires. -/
theorem claim2_counterexample :
    (parse_messages ["[10.6.2024, 1:2:3] A: דיווח: N c"] [] "10.6.2024").map
        Report.time = ["1:2:3"] ∧
      ("1:2:3" : String) ≠ "1:2" := ⟨by decide, by decide⟩

/-- C2, amended: for every line that matches the pattern directly and has
the target date, the stored record keeps the first five characters of the
matched time (which equals the "H:M" form only when hour and minutes take
two digits each) and reverses the reporter, direction and car strings. -/
theorem claim2_direct_truncation (l : String) (ls cors : List String)
    (date : String) (g : RawMatch) (h1 : matchPattern (strip l) = some g)
    (h2 : g.date = date) :
    parse_messages (l :: ls) cors date =
      ⟨g.date, strTake g.time 5, strRev g.reporter, strRev g.direction,
          strRev g.car⟩ ::
        parse_messages ls cors date := by
  simp [parse_messages, parseAux, h1, h2, directReport]

/-- C2, witness: `claim2_direct_truncation` applied to the concrete line
`[10.6.2024, 9:5:30] Bob: דיווח: South blue car`. -/
theorem claim2_witness :
    parse_messages ("[10.6.2024, 9:5:30] Bob: דיווח: South blue car" :: []) []
        "10.6.2024" =
      ⟨"10.6.2024", strTake "9:5:30" 5, strRev "Bob", strRev "South",
          strRev "blue car"⟩ ::
        parse_messages [] [] "10.6.2024" :=
  claim2_direct_truncation _ [] [] "10.6.2024"
    ⟨"10.6.2024", "9:5:30", "Bob", "South", "blue car"⟩ (by decide) (by decide)

/-- C3: for every list of Reports, the chronological table returned by
`generate_tables` is a permutation of the input ordered (pairwise) by the
lexicographic string comparison `timeRel` of the time fields; in
particular, for two records with times `"10:00:00"` and `"9:00:00"` the
`"10:00:00"` record is ordered first, whatever the input order. -/
theorem claim3_lexicographic_sort :
    (∀ msgs : List Report,
        ((generate_tables msgs).1).Pairwise timeRel ∧
          ((generate_tables msgs).1).Perm msgs) ∧
      (generate_tables
            [⟨"10.6.2024", "9:00:00", "a", "b", "c"⟩,
              ⟨"10.6.2024", "10:00:00", "a", "b", "c"⟩]).1 =
        [⟨"10.6.2024", "10:00:00", "a", "b", "c"⟩,
          ⟨"10.6.2024", "9:00:00", "a", "b", "c"⟩] := by
  refine ⟨fun msgs => ⟨?_, List.perm_insertionSort timeRel msgs⟩, by decide⟩
  exact List.sorted_insertionSort timeRel msgs

/-- C4, counterexample: an entry with time `"09:05:00"` does NOT sort
after an entry with time `"10:00:00"`: even when the `"10:00:00"` entry
comes first in the input, the `"09:05:00"` entry comes out first, because
`"0" < "1"` lexically at position 0 puts `"09:05:00"` BEFORE
`"10:00:00"`. -/
theorem claim4_counterexample :
    (generate_tables
          [⟨"10.6.2024", "10:00:00", "a", "b", "c"⟩,
            ⟨"10.6.2024", "09:05:00", "a", "b", "c"⟩]).1 ≠
        [⟨"10.6.2024", "10:00:00", "a", "b", "c"⟩,
          ⟨"10.6.2024", "09:05:00", "a", "b", "c"⟩] ∧
      (generate_tables
          [⟨"10.6.2024", "10:00:00", "a", "b", "c"⟩,
            ⟨"10.6.2024", "09:05:00", "a", "b", "c"⟩]).1 =
        [⟨"10.6.2024", "09:05:00", "a", "b", "c"⟩,
          ⟨"10.6.2024", "10:00:00", "a", "b", "c"⟩] := ⟨by decide, by decide⟩

/-- C4, amended: under the program's lexical string comparison of the time
field, `"09:05:00"` sorts BEFORE `"10:00:00"` (at position 0, `'0' < '1'`;
for zero-padded times the lexical order agrees with the numeric order —
the counter-intuitive case needs an unpadded hour such as `"9:00:00"`). -/
theorem claim4_lexical_before :
    (generate_tables
          [⟨"10.6.2024", "09:05:00", "a", "b", "c"⟩,
            ⟨"10.6.2024", "10:00:00", "a", "b", "c"⟩]).1 =
        [⟨"10.6.2024", "09:05:00", "a", "b", "c"⟩,
          ⟨"10.6.2024", "10:00:00", "a", "b", "c"⟩] ∧
      strLe "09:05:00" "10:00:00" = true ∧
      strLe "10:00:00" "09:05:00" = false := ⟨by decide, by decide, by decide⟩

/-- C5: `process_chat` only appends to the store: for every starting store,
every date's stored chronological list and every per-car list is extended
on the right, never rewritten, removed or deduplicated; and running
`process_chat` twice with the same input lines, corrections and date,
starting from the empty store, leaves the chronological list and every
per-car list for that date at exactly twice their single-run length. -/
theorem claim5_append_only_doubling :
    ∀ (lines cors : List String) (date : String),
      (∀ (s0 : Store) (d : String),
          ∃ t, chronAt s0 d ++ t = chronAt (process_chat s0 lines cors date).1 d) ∧
      (∀ (s0 : Store) (d car : String),
          ∃ t, carListAt s0 d car ++ t =
            carListAt (process_chat s0 lines cors date).1 d car) ∧
      ((chronAt
            (process_chat (process_chat [] lines cors date).1 lines cors date).1
            date).length =
          2 * (chronAt (process_chat [] lines cors date).1 date).length) ∧
      (∀ car,
          (carListAt
              (process_chat (process_chat [] lines cors date).1 lines cors date).1
              date car).length =
            2 * (carListAt (process_chat [] lines cors date).1 date car).length) := by
  intro lines cors date
  have hps : ∀ s0 : Store,
      (process_chat s0 lines cors date).1 =
        updateStore s0 date (generate_tables (parse_messages lines cors date)).1
          (generate_tables (parse_messages lines cors date)).2 := fun _ => rfl
  have hnd : (((generate_tables (parse_messages lines cors date)).2).map
      Prod.fst).Nodup := nodup_keys_buildCarSummary (parse_messages lines cors date)
  refine ⟨?_, ?_, ?_, ?_⟩
  · intro s0 d
    rw [hps, chronAt_updateStore]
    by_cases h : d = date
    · rw [if_pos h]
      exact ⟨_, rfl⟩
    · rw [if_neg h]
      exact ⟨[], List.append_nil _⟩
  · intro s0 d car
    rw [hps]
    simp only [carListAt, summaryAt_updateStore]
    by_cases h : d = date
    · rw [if_pos h]
      exact lookup_mergeSummary_exists _ _ car
    · rw [if_neg h]
      exact ⟨[], List.append_nil _⟩
  · rw [hps, hps, chronAt_updateStore, if_pos rfl, chronAt_updateStore, if_pos rfl]
    simp only [chronAt, List.nil_append, List.length_append]
    omega
  · intro car
    rw [hps, hps]
    simp only [carListAt, summaryAt_updateStore, summaryAt, eq_self_iff_true,
      if_true]
    rw [lookup_mergeSummary _ _ car hnd, lookup_mergeSummary _ _ car hnd]
    rcases hlc : lookupCar (generate_tables (parse_messages lines cors date)).2 car
      with _ | ds
    · simp [lookupCar]
    · simp [lookupCar, List.length_append]
      omega

/-- C6: every Report whose date field differs from the caller-supplied
target date is excluded from both tables: each record of the chronological
table has date equal to the target (the parser compares `msg_date == date`
exactly), and each per-car entry comes from a parsed record whose date
equals the target. -/
theorem claim6_date_filter (lines cors : List String) (target : String) :
    (∀ r, r ∈ (generate_tables (parse_messages lines cors target)).1 →
        r.date = target) ∧
      (∀ (car : String) (e : CarEntry),
        e ∈ (lookupCar ((generate_tables (parse_messages lines cors target)).2)
              car).getD [] →
        ∃ m, m ∈ parse_messages lines cors target ∧ m.date = target ∧
          m.car = car ∧ e = ⟨m.time, m.reporter, m.direction⟩) := by
  constructor
  · intro r hr
    exact date_of_mem_parse lines cors target r
      ((List.perm_insertionSort timeRel _).mem_iff.1 hr)
  · intro car e he
    rcases mem_carSummary_fold (parse_messages lines cors target) [] car e he with
      h1 | ⟨m, hm, hcar, hee⟩
    · simp [lookupCar] at h1
    · exact ⟨m, hm, date_of_mem_parse lines cors target m hm, hcar, hee⟩

/-- C6, witness: `claim6_date_filter` applied to one concrete matching
line, producing the per-car entry of the car `"peej etihw"`. -/
theorem claim6_witness :
    ∃ m, m ∈ parse_messages ["[10.6.2024, 14:23:06] Avi: דיווח: East white jeep"]
        [] "10.6.2024" ∧
      m.date = "10.6.2024" ∧ m.car = "peej etihw" ∧
      (⟨"14:23", "ivA", "tsaE"⟩ : CarEntry) = ⟨m.time, m.reporter, m.direction⟩ :=
  (claim6_date_filter ["[10.6.2024, 14:23:06] Avi: דיווח: East white jeep"] []
      "10.6.2024").2 "peej etihw" ⟨"14:23", "ivA", "tsaE"⟩ (by decide)

/-- C7: `load_data` maps a missing store file to the empty store, while an
unreadable file or invalid JSON produces an error that propagates to the
caller (only `FileNotFoundError` is caught), and a well-formed file loads
as-is. -/
theorem claim7_load_data :
    load_data .absent = .ok [] ∧
      (∀ m, load_data (.unreadable m) = .error (.osError m)) ∧
      (∀ m, load_data (.invalidJson m) = .error (.jsonDecodeError m)) ∧
      (∀ s, load_data (.wellFormed s) = .ok s) :=
  ⟨rfl, fun _ => rfl, fun _ => rfl, fun _ => rfl⟩

/-- C8: the parsing loop consumes exactly one correction input per line
that fails to match the pattern (so one manual correction is solicited per
unmatched line, never a second one); and when the correction for an
unmatched line is empty or also fails to match, the line contributes no
record and processing continues with the remaining lines and the remaining
corrections. -/
theorem claim8_single_correction (date : String) (lines cors : List String)
    (l : String) (ls cors2 : List String)
    (h1 : matchPattern (strip l) = none)
    (h2 : strip (cors2.headD "") = "" ∨
      matchPattern (strip (cors2.headD "")) = none) :
    (parseAux date lines cors).2 =
        cors.drop (lines.countP fun s => (matchPattern (strip s)).isNone) ∧
      parseAux date (l :: ls) cors2 = parseAux date ls cors2.tail := by
  refine ⟨parseAux_snd date lines cors, ?_⟩
  simp only [parseAux, h1]
  rcases h2 with h2 | h2
  · rw [if_pos h2]
    simp
  · by_cases hc : strip (cors2.headD "") = ""
    · rw [if_pos hc]
      simp
    · rw [if_neg hc]
      have h2b : matchPattern (strip (cors2.head?.getD "")) = none := by
        rw [← List.headD_eq_head?]
        exact h2
      simp [h2b]

/-- C8, witness: `claim8_single_correction` at concrete inputs: one
matching line consumes no correction, and the unmatched line `"garbage"`
with an exhausted (empty) correction stream is dropped. -/
theorem claim8_witness :
    (parseAux "10.6.2024" ["hello"] ["later"]).2 =
        ["later"].drop
          ((["hello"] : List String).countP fun s =>
            (matchPattern (strip s)).isNone) ∧
      parseAux "10.6.2024" ["garbage"] [] =
        parseAux "10.6.2024" [] ([] : List String).tail :=
  claim8_single_correction "10.6.2024" ["hello"] ["later"] "garbage" [] []
    (by decide) (Or.inl (by decide))

/-- C9, counterexample: the entry stored in the chronological sequence for
`10.6.2024` is the full five-field record including the date field (the
Python code appends the parsed message dict, whose `"date"` key is
present), not a record with the date removed. -/
theorem claim9_counterexample :
    chronAt
        (process_chat [] ["[10.6.2024, 15:00:09] Gadi: דיווח: West gray truck"]
            [] "10.6.2024").1 "10.6.2024" =
        [⟨"10.6.2024", "15:00", "idaG", "tseW", "kcurt yarg"⟩] ∧
      (chronAt
          (process_chat [] ["[10.6.2024, 15:00:09] Gadi: דיווח: West gray truck"]
              [] "10.6.2024").1 "10.6.2024").map Report.date =
        ["10.6.2024"] := ⟨by decide, by decide⟩

/-- C9, amended: the chronological sequence stored under a date is extended
by full five-field Reports whose date field equals that date; only the
per-car entries (of type `CarEntry`) carry no date field. -/
theorem claim9_amended (lines cors : List String) (date : String) (s0 : Store) :
    chronAt (process_chat s0 lines cors date).1 date =
        chronAt s0 date ++ (generate_tables (parse_messages lines cors date)).1 ∧
      ∀ r, r ∈ (generate_tables (parse_messages lines cors date)).1 →
        r.date = date := by
  constructor
  · rw [show (process_chat s0 lines cors date).1 =
        updateStore s0 date (generate_tables (parse_messages lines cors date)).1
          (generate_tables (parse_messages lines cors date)).2 from rfl,
      chronAt_updateStore, if_pos rfl]
  · intro r hr
    exact date_of_mem_parse lines cors date r
      ((List.perm_insertionSort timeRel _).mem_iff.1 hr)

/-- C9, witness: `claim9_amended` at a concrete line; the record appended
to the chronological sequence carries the date field `10.6.2024`. -/
theorem claim9_witness :
    (⟨"10.6.2024", "15:01", "inoR", "htroN", "suB"⟩ : Report).date =
      "10.6.2024" :=
  (claim9_amended ["[10.6.2024, 15:01:02] Roni: דיווח: North Bus"] []
      "10.6.2024" []).2
    ⟨"10.6.2024", "15:01", "inoR", "htroN", "suB"⟩ (by decide)

/-- C10, counterexample: for the line `[10.6.2024, 1:2:3] B: דיווח: S z y`
(whose matched time has exactly five characters) the direct path and the
correction path store the SAME record, so the two acceptance paths can
produce equal Reports for the same line. -/
theorem claim10_counterexample :
    parse_messages ["[10.6.2024, 1:2:3] B: דיווח: S z y"] [] "10.6.2024" =
        [⟨"10.6.2024", "1:2:3", "B", "S", "y z"⟩] ∧
      parse_messages [""] ["[10.6.2024, 1:2:3] B: דיווח: S z y"] "10.6.2024" =
        [⟨"10.6.2024", "1:2:3", "B", "S", "y z"⟩] := ⟨by decide, by decide⟩

/-- C10, amended: a line accepted through the correction prompt stores the
full matched time, the same line matched directly stores only its first
five characters, and the character-order reversal of reporter, direction
and car is identical on both paths; consequently the two paths produce
different Reports exactly when the matched time is longer than five
characters (they coincide for minimum-length times such as `1:2:3`). -/
theorem claim10_paths (line target : String) (g : RawMatch)
    (h1 : matchPattern (strip line) = some g) (h2 : g.date = target) :
    parse_messages [line] [] target =
        [⟨g.date, strTake g.time 5, strRev g.reporter, strRev g.direction,
            strRev g.car⟩] ∧
      parse_messages [""] [line] target =
        [⟨g.date, g.time, strRev g.reporter, strRev g.direction, strRev g.car⟩] ∧
      (5 < g.time.length →
        parse_messages [line] [] target ≠ parse_messages [""] [line] target) := by
  have hne : strip line ≠ "" := by
    intro he
    rw [he] at h1
    rw [show matchPattern "" = none from rfl] at h1
    exact Option.noConfusion h1
  have hd : parse_messages [line] [] target = [directReport g] := by
    simp [parse_messages, parseAux, h1, h2]
  have hc : parse_messages [""] [line] target = [correctedReport g] := by
    have h0 : matchPattern (strip "") = none := rfl
    simp [parse_messages, parseAux, h0, hne, h1, h2]
  refine ⟨hd, hc, fun hlen heq => ?_⟩
  rw [hd, hc] at heq
  simp only [List.cons.injEq, and_true] at heq
  exact strTake_ne g.time hlen (congrArg Report.time heq)

/-- C10, witness: `claim10_paths` at the line
`[10.6.2024, 14:23:05] Dana: דיווח: North red sedan plate 123`, whose
eight-character time makes the two acceptance paths disagree. -/
theorem claim10_witness :
    parse_messages ["[10.6.2024, 14:23:05] Dana: דיווח: North red sedan plate 123"]
        [] "10.6.2024" ≠
      parse_messages [""]
        ["[10.6.2024, 14:23:05] Dana: דיווח: North red sedan plate 123"]
        "10.6.2024" :=
  (claim10_paths "[10.6.2024, 14:23:05] Dana: דיווח: North red sedan plate 123"
      "10.6.2024" ⟨"10.6.2024", "14:23:05", "Dana", "North", "red sedan plate 123"⟩
      (by decide) (by decide)).2.2 (by decide)

end RoadGuard
